import Mathlib

/-!
Verification development for the markdown event-stream → tree → markdown
pipeline implemented in `src/markdown/ast.rs`.

Modelling conventions:
* Rust `usize` is modelled as `Nat`; `usize::MAX` is the explicit constant
  `USIZE_MAX = 2 ^ 64 - 1` (64-bit target).
* Rust panics (`todo!()`, out-of-bounds indexing) and `Result::Err` are both
  modelled in the `Except PErr` monad, with distinct constructors so that a
  panic is never confused with an ordinary error return.
* `pulldown_cmark` event/tag types are external inputs; every unsupported
  variant (lists, links, code, …) behaves identically in the source (it only
  ever meets `_ =>` match arms), so they are collapsed into a single
  `OtherTag` / `OtherTagEnd` / `OtherEvent` constructor.
* `Rc<Node>` values held on the `open_headings` stack are modelled as a node
  value together with the strong count of the underlying allocation
  (`RcNode.strong`); `Rc::get_mut` succeeds exactly when that count is 1.
* Rust `Vec` stacks push/pop at the end; the Lean lists modelling
  `open_headings` keep the top of the stack at the HEAD of the list.
-/

/-- `Text` from ast.rs (the source spells Brake for Break). -/
inductive Text where
  | Plain (txt : String)
  | Italic (txt : String)
  | Bold (txt : String)
  | Strikethrough (txt : String)
  | SoftBrake
  | HardBrake
deriving DecidableEq

/-- `Text::to_markdown`. -/
def Text.to_markdown : Text → String
  | .Plain txt => txt
  | .Italic txt => "_" ++ txt ++ "_"
  | .Bold txt => "**" ++ txt ++ "**"
  | .Strikethrough txt => "~~" ++ txt ++ "~~"
  | .SoftBrake => "\n"
  | .HardBrake => "\\\n"

/-- `NodeType` from ast.rs. -/
inductive NodeType where
  | Document
  | Text (txt : Text)
  | Paragraph
  | Heading (level : Nat) (content : List Text)
deriving DecidableEq

/-- `Node` from ast.rs: a node type plus the `subnodes` vector. -/
inductive Node where
  | mk (node_type : NodeType) (subnodes : List Node)

/-- Field accessor for `Node.node_type`. -/
def Node.node_type : Node → NodeType
  | ⟨nt, _⟩ => nt

/-- Field accessor for `Node.subnodes`. -/
def Node.subnodes : Node → List Node
  | ⟨_, subs⟩ => subs

/-- The private `Tag` enum of ast.rs. -/
inductive Tag where
  | Italic
  | Bold
  | Strikethrough
  | Paragraph
  | Heading (level : Nat)
deriving DecidableEq

/-- `pulldown_cmark::HeadingLevel` (H1 = 1 … H6 = 6 under `as usize`). -/
inductive HeadingLevel where
  | H1 | H2 | H3 | H4 | H5 | H6
deriving DecidableEq

/-- `level as usize` on a `pulldown_cmark::HeadingLevel`. -/
def HeadingLevel.toUsize : HeadingLevel → Nat
  | .H1 => 1
  | .H2 => 2
  | .H3 => 3
  | .H4 => 4
  | .H5 => 5
  | .H6 => 6

/-- `pulldown_cmark::Tag`; all variants that only meet `_ =>` arms in the
source are collapsed into `OtherTag`. -/
inductive PTag where
  | Emphasis
  | Strong
  | Strikethrough
  | Heading (level : HeadingLevel)
  | Paragraph
  | OtherTag
deriving DecidableEq

/-- `pulldown_cmark::TagEnd`, collapsed the same way as `PTag`. -/
inductive PTagEnd where
  | Emphasis
  | Strong
  | Strikethrough
  | Heading (level : HeadingLevel)
  | Paragraph
  | OtherTagEnd
deriving DecidableEq

/-- `pulldown_cmark::Event`; `OtherEvent` collapses Code/Html/Rule/…, all of
which only meet `_ =>` arms in the source. -/
inductive Event where
  | Start (tag : PTag)
  | End (tagEnd : PTagEnd)
  | Text (txt : String)
  | SoftBreak
  | HardBreak
  | OtherEvent
deriving DecidableEq

/-- Failure modes: `panicMsg` models a Rust panic (`todo!()`, indexing),
`errMsg` models `Result::Err(&'static str)`. -/
inductive PErr where
  | panicMsg (msg : String)
  | errMsg (msg : String)
deriving DecidableEq

/-- The panic produced by `todo!()`. -/
def unimplementedPanic : PErr := .panicMsg "not yet implemented"

/-- Spec name for `Err("Not all events are text events")`. -/
def MalformedInline : PErr := .errMsg "Not all events are text events"

/-- Spec name for `Err("Non text node was found")`. -/
def StructuralViolation : PErr := .errMsg "Non text node was found"

/-- Spec name for `Err("Cannot get mut from ref counted")`. -/
def AliasingConflict : PErr := .errMsg "Cannot get mut from ref counted"

/-- Spec name for `Err("Not headinh tag")` (typo as in the source). -/
def InvalidTag : PErr := .errMsg "Not headinh tag"

/-- `Tag::from_start`; the `_ => todo!()` arm panics. -/
def Tag.from_start : PTag → Except PErr Tag
  | .Emphasis => .ok .Italic
  | .Strong => .ok .Bold
  | .Strikethrough => .ok .Strikethrough
  | .Heading level => .ok (.Heading level.toUsize)
  | .Paragraph => .ok .Paragraph
  | .OtherTag => .error unimplementedPanic

/-- `Tag::from_end`; only the three inline kinds are implemented, every other
`TagEnd` (including Heading and Paragraph) hits `_ => todo!()`. -/
def Tag.from_end : PTagEnd → Except PErr Tag
  | .Emphasis => .ok .Italic
  | .Strong => .ok .Bold
  | .Strikethrough => .ok .Strikethrough
  | .Heading _ => .error unimplementedPanic
  | .Paragraph => .error unimplementedPanic
  | .OtherTagEnd => .error unimplementedPanic

/-- `format!("{:indent$}", "", indent = n)`: `n` spaces. -/
def spaces (n : Nat) : String := String.mk (List.replicate n ' ')

/-- Rust `str::repeat`. -/
def strRepeat (s : String) (n : Nat) : String := String.join (List.replicate n s)

mutual

/-- `Node::write_indented` (the `println!` debug output goes to stdout, not to
the formatter, so it does not contribute to the rendered string). -/
def Node.write_indented : Node → Nat → String
  | ⟨.Document, subs⟩, level => writeListIndented subs level
  | ⟨.Text txt, _⟩, level => spaces (level * 2) ++ txt.to_markdown
  | ⟨.Heading lvl content, subs⟩, level =>
      spaces (level * 2) ++ strRepeat "#" lvl ++ " "
        ++ String.join (content.map Text.to_markdown) ++ "\n"
        ++ writeListIndented subs (level + 1)
  | ⟨.Paragraph, subs⟩, level => writeListIndented subs level

/-- The `for node in &self.subnodes { node.write_indented(f, …)? }` loops. -/
def writeListIndented : List Node → Nat → String
  | [], _ => ""
  | n :: ns, level => n.write_indented level ++ writeListIndented ns level

end

/-- `impl Display for Node`: render at depth 0. -/
def Node.display (n : Node) : String := n.write_indented 0

/-- An `Rc<Node>` slot of the `open_headings` stack: the node value plus the
strong count of the allocation this slot points to. -/
structure RcNode where
  node : Node
  strong : Nat

/-- `usize::MAX` on the 64-bit target. -/
def USIZE_MAX : Nat := 2 ^ 64 - 1

/-- The level of a heading node, if it is one. -/
def headingLevel? (n : Node) : Option Nat :=
  match n.node_type with
  | .Heading level _ => some level
  | _ => none

/-- Level of a stack entry, defaulting to `USIZE_MAX` for non-headings (this
mirrors `push_level.unwrap_or(usize::MAX)` and doubles as a heading test:
an entry is a heading with in-range level iff `entryLevel e < USIZE_MAX`). -/
def entryLevel (e : RcNode) : Nat := (headingLevel? e.node).getD USIZE_MAX

/-- The `while let Some(n) = open_headings.last()` popping loop of
`push_node`: pop while the top entry is a heading of level `≥` the incoming
level (`usize::MAX` for non-headings); break on anything else. -/
def popOpen (push_level : Option Nat) : List RcNode → List RcNode
  | [] => []
  | e :: restStack =>
    match e.node.node_type with
    | .Heading lvl _ =>
      if push_level.getD USIZE_MAX ≤ lvl then popOpen push_level restStack
      else e :: restStack
    | _ => e :: restStack

/-- The local `push_node` of `Node::parse_nodes`.  After the popping step the
node is attached: to `nodes` when the stack is empty, else through
`Rc::get_mut` on the top entry (which fails unless its strong count is 1).
A heading then pushes a clone of the just-attached node, except that with an
empty stack the `0usize => todo!()` arm panics; the freshly cloned `Rc` has
strong count 2 (one reference in the tree, one on the stack). -/
def push_node (node : Node) (nodes : List Node) (open_headings : List RcNode) :
    Except PErr (List Node × List RcNode) :=
  let push_level : Option Nat :=
    match node.node_type with
    | .Heading level _ => some level
    | _ => none
  let popped := popOpen push_level open_headings
  match popped with
  | [] =>
    match push_level with
    | some _ => .error unimplementedPanic
    | none => .ok (nodes ++ [node], [])
  | top :: restStack =>
    if top.strong = 1 then
      let top' : RcNode := ⟨⟨top.node.node_type, top.node.subnodes ++ [node]⟩, top.strong⟩
      match push_level with
      | some _ =>
        match top'.node.subnodes.getLast? with
        | none => .error (.panicMsg "index out of bounds")
        | some sub => .ok (nodes, ⟨sub, 2⟩ :: top' :: restStack)
      | none => .ok (nodes, top' :: restStack)
    else .error AliasingConflict

/-- Result of one of the `take_while(…End…)` splits: the events kept by the
predicate and the events remaining in the underlying iterator afterwards. -/
structure Collected (events : List Event) where
  taken : List Event
  rest : List Event
  taken_le : taken.length ≤ events.length
  rest_le : rest.length ≤ events.length

/-- The `events.take_while(|event| match event { End(tag_end) =>
Tag::from_end(*tag_end) != tag, _ => true })` splits used by all three
construct parsers.  The matching `End` is consumed and dropped; `from_end`
can panic while classifying an `End` event. -/
def collectUntilEnd (tag : Tag) : (events : List Event) → Except PErr (Collected events)
  | [] => .ok ⟨[], [], by simp, by simp⟩
  | e :: restEvents =>
    match h : e with
    | .End tagEnd =>
      match Tag.from_end tagEnd with
      | .error pe => .error pe
      | .ok t =>
        if t = tag then .ok ⟨[], restEvents, by simp, by simp⟩
        else
          match collectUntilEnd tag restEvents with
          | .error pe => .error pe
          | .ok c => .ok ⟨e :: c.taken, c.rest,
              by have := c.taken_le; simp; omega,
              by have := c.rest_le; simp; omega⟩
    | .Start _ | .Text _ | .SoftBreak | .HardBreak | .OtherEvent =>
      match collectUntilEnd tag restEvents with
      | .error pe => .error pe
      | .ok c => .ok ⟨e :: c.taken, c.rest,
          by have := c.taken_le; simp; omega,
          by have := c.rest_le; simp; omega⟩

/-- The text payload of a literal-text event. -/
def textOf : Event → Option String
  | .Text txt => some txt
  | _ => none

/-- Remaining-stream type of a construct parser: it never leaves more events
in the iterator than it was given. -/
def ParseResult (events : List Event) :=
  Except PErr (Node × {rest : List Event // rest.length ≤ events.length})

/-- `Node::parse_text_event`. -/
def Node.parse_text_event (events : List Event) (tag : Tag) : ParseResult events :=
  match collectUntilEnd tag events with
  | .error pe => .error pe
  | .ok c =>
    let txt_events := c.taken
    let text_str := txt_events.filterMap textOf
    if txt_events.length ≠ text_str.length then
      .error MalformedInline
    else
      let text := String.join text_str
      match tag with
      | .Italic => .ok (⟨.Text (.Italic text), []⟩, ⟨c.rest, c.rest_le⟩)
      | .Bold => .ok (⟨.Text (.Bold text), []⟩, ⟨c.rest, c.rest_le⟩)
      | .Strikethrough => .ok (⟨.Text (.Strikethrough text), []⟩, ⟨c.rest, c.rest_le⟩)
      | _ => .error (.errMsg "Not a text event")

/-- Whether a node is a `NodeType::Text` node. -/
def isTextNode (n : Node) : Bool :=
  match n.node_type with
  | .Text _ => true
  | _ => false

/-- The `Text` span of a text node (the `filter_map` in `parse_heading`). -/
def nodeSpan : Node → Option Text
  | ⟨.Text txt, _⟩ => some txt
  | _ => none

/-- The `for node in &txt_nodes { … return Err("Non text node was found") }`
scan shared by `parse_paragraph` and `parse_heading`. -/
def check_all_text : List Node → Except PErr Unit
  | [] => .ok ()
  | n :: rest =>
    match n.node_type with
    | .Text _ => check_all_text rest
    | _ => .error StructuralViolation

mutual

/-- `Node::parse_paragraph`.  The source builds the sub-stream with
`take_while(… != Tag::Paragraph)` and feeds it to `parse_nodes`; the lazy
iterator is observationally equivalent to collecting first, because on an
early error the whole parse aborts anyway. -/
def Node.parse_paragraph (events : List Event) : ParseResult events :=
  match collectUntilEnd Tag.Paragraph events with
  | .error pe => .error pe
  | .ok c =>
    match Node.parse_nodes c.taken with
    | .error pe => .error pe
    | .ok txt_nodes =>
      match check_all_text txt_nodes with
      | .error pe => .error pe
      | .ok _ => .ok (⟨.Paragraph, txt_nodes⟩, ⟨c.rest, c.rest_le⟩)
termination_by 4 * events.length + 2
decreasing_by
  have := c.taken_le; omega

/-- `Node::parse_heading`: same recursive sub-parse and text-only check, then
the level is extracted from the tag (`Err("Not headinh tag")` otherwise);
the resulting node carries the spans as `content` and empty `subnodes`. -/
def Node.parse_heading (events : List Event) (tag : Tag) : ParseResult events :=
  match collectUntilEnd tag events with
  | .error pe => .error pe
  | .ok c =>
    match Node.parse_nodes c.taken with
    | .error pe => .error pe
    | .ok text_nodes =>
      match check_all_text text_nodes with
      | .error pe => .error pe
      | .ok _ =>
        match tag with
        | .Heading level =>
            .ok (⟨.Heading level (text_nodes.filterMap nodeSpan), []⟩, ⟨c.rest, c.rest_le⟩)
        | _ => .error InvalidTag
termination_by 4 * events.length + 2
decreasing_by
  have := c.taken_le; omega

/-- `Node::parse_tag`. -/
def Node.parse_tag (events : List Event) (tag : Tag) : ParseResult events :=
  match tag with
  | .Italic | .Bold | .Strikethrough => Node.parse_text_event events tag
  | .Paragraph => Node.parse_paragraph events
  | .Heading _ => Node.parse_heading events tag
termination_by 4 * events.length + 3
decreasing_by
  all_goals omega

/-- `Node::parse_nodes`: initialise `nodes` and `open_headings` empty and run
the main loop. -/
def Node.parse_nodes (events : List Event) : Except PErr (List Node) :=
  Node.parse_loop events [] []
termination_by 4 * events.length + 1
decreasing_by
  omega

/-- The `while let Some(event) = events.next()` main loop of
`Node::parse_nodes`: `Start` dispatches through the classifier and
`parse_tag`, a bare literal-text event becomes a `Plain` text node, and any
other event kind hits `_ => todo!()`. -/
def Node.parse_loop (events : List Event) (nodes : List Node)
    (open_headings : List RcNode) : Except PErr (List Node) :=
  match events with
  | [] => .ok nodes
  | .Start ptag :: rest =>
    match Tag.from_start ptag with
    | .error pe => .error pe
    | .ok tag =>
      match Node.parse_tag rest tag with
      | .error pe => .error pe
      | .ok (node, rest') =>
        match push_node node nodes open_headings with
        | .error pe => .error pe
        | .ok (nodes', open') => Node.parse_loop rest'.val nodes' open'
  | .Text txt :: rest =>
    match push_node ⟨.Text (.Plain txt), []⟩ nodes open_headings with
    | .error pe => .error pe
    | .ok (nodes', open') => Node.parse_loop rest nodes' open'
  | .End _ :: _ => .error unimplementedPanic
  | .SoftBreak :: _ => .error unimplementedPanic
  | .HardBreak :: _ => .error unimplementedPanic
  | .OtherEvent :: _ => .error unimplementedPanic
termination_by 4 * events.length
decreasing_by
  all_goals simp only [List.length_cons]
  all_goals first
    | (have _hb := rest'.2; omega)
    | omega

end

/-- Stack-free rendition of the main loop: every successfully produced node is
appended to the root list, and producing a heading aborts with the `todo!()`
panic.  No open-headings stack and no `Rc::get_mut` attachment exist here;
proving it equal to `Node.parse_loop … []` shows the child-attachment branch
(and its aliasing failure path) is unreachable from `Node.parse_nodes`. -/
def parse_loop_roots_only (events : List Event) (nodes : List Node) :
    Except PErr (List Node) :=
  match events with
  | [] => .ok nodes
  | .Start ptag :: rest =>
    match Tag.from_start ptag with
    | .error pe => .error pe
    | .ok tag =>
      match Node.parse_tag rest tag with
      | .error pe => .error pe
      | .ok (node, rest') =>
        match node.node_type with
        | .Heading _ _ => .error unimplementedPanic
        | _ => parse_loop_roots_only rest'.val (nodes ++ [node])
  | .Text txt :: rest => parse_loop_roots_only rest (nodes ++ [⟨.Text (.Plain txt), []⟩])
  | .End _ :: _ => .error unimplementedPanic
  | .SoftBreak :: _ => .error unimplementedPanic
  | .HardBreak :: _ => .error unimplementedPanic
  | .OtherEvent :: _ => .error unimplementedPanic
termination_by events.length
decreasing_by
  all_goals simp only [List.length_cons]
  all_goals first
    | (have _hb := rest'.2; omega)
    | omega

/-- The styled span an inline-style tag wraps its concatenated text in
(statement helper for the inline-style parser; the `Plain` fallback is never
used for an inline tag). -/
def styledSpan : Tag → String → Text
  | .Italic, s => .Italic s
  | .Bold, s => .Bold s
  | .Strikethrough, s => .Strikethrough s
  | _, s => .Plain s

/-! ## Theorems -/

/-- C8: for every string `x`, the rendered decorated form of a `Text` span is:
`Plain(x)` renders `x`; `Bold(x)` renders `"**" ++ x ++ "**"`; `Italic(x)`
renders `"_" ++ x ++ "_"`; `Strikethrough(x)` renders `"~~" ++ x ++ "~~"`;
`SoftBreak` renders a single newline; `HardBreak` renders a backslash
followed by a newline. -/
theorem c8_decoration_roundtrip (x : String) :
    Text.to_markdown (.Plain x) = x
    ∧ Text.to_markdown (.Bold x) = "**" ++ x ++ "**"
    ∧ Text.to_markdown (.Italic x) = "_" ++ x ++ "_"
    ∧ Text.to_markdown (.Strikethrough x) = "~~" ++ x ++ "~~"
    ∧ Text.to_markdown .SoftBrake = "\n"
    ∧ Text.to_markdown .HardBrake = "\\\n" :=
  ⟨rfl, rfl, rfl, rfl, rfl, rfl⟩

/-- C2 (code bug evidence): when a `Heading` node is produced with an empty
open-headings stack, `push_node` does append it to the root forest but then
hits the `0usize => todo!()` arm and panics instead of pushing a fresh stack
entry and continuing; in particular the one-heading stream
`[Start(Heading(H1))]` makes the whole parse abort. -/
theorem c2_first_heading_panics :
    (∀ (level : Nat) (content : List Text) (nodes : List Node),
        push_node ⟨.Heading level content, []⟩ nodes [] = .error unimplementedPanic)
    ∧ Node.parse_nodes [.Start (.Heading .H1)] = .error unimplementedPanic := by
  refine ⟨fun level content nodes => rfl, ?_⟩
  simp [Node.parse_nodes, Node.parse_loop, Node.parse_tag, Node.parse_heading,
    Tag.from_start, HeadingLevel.toUsize, collectUntilEnd, check_all_text,
    push_node, popOpen, Node.node_type]

/-- C1 (code bug evidence): the event stream
`[Start(Heading(1)), Text("Heading"), End(Heading)]` does not parse — the
`take_while` predicate of `parse_heading` calls `Tag::from_end` on
`End(Heading)`, whose arm is `todo!()`, so the parse panics; rendering the
tree the claim expects does produce exactly `"# Heading\n"`. -/
theorem c1_heading_stream_panics :
    Node.parse_nodes [.Start (.Heading .H1), .Text "Heading", .End (.Heading .H1)]
        = .error unimplementedPanic
    ∧ Node.write_indented ⟨.Document, [⟨.Heading 1 [Text.Plain "Heading"], []⟩]⟩ 0
        = "# Heading\n" := by
  refine ⟨?_, rfl⟩
  simp [Node.parse_nodes, Node.parse_loop, Node.parse_tag, Node.parse_heading,
    Tag.from_start, Tag.from_end, HeadingLevel.toUsize, collectUntilEnd]

/-- C4 counterexample: the claim says soft-break and (unmatched) `End` events
are accepted at the top level of parsing, but `parse_nodes` hits the
`_ => todo!()` arm on both and the whole parse aborts. -/
theorem c4_counterexample :
    Node.parse_nodes [Event.SoftBreak] = .error unimplementedPanic
    ∧ Node.parse_nodes [Event.End PTagEnd.Emphasis] = .error unimplementedPanic := by
  constructor <;> simp [Node.parse_nodes, Node.parse_loop]

/-- C4 amended: at top level only `Start` events whose tag classifies
(Emphasis, Strong, Strikethrough, Heading, Paragraph) and literal-text events
are handled; a `Start` with any other tag panics in the classifier, and
`End`, soft-break, hard-break and every other event kind panic
(`todo!()`) immediately, so no forest is returned in any of these cases. -/
theorem c4_toplevel_event_handling :
    (Tag.from_start .Emphasis = .ok .Italic
      ∧ Tag.from_start .Strong = .ok .Bold
      ∧ Tag.from_start .Strikethrough = .ok .Strikethrough
      ∧ (∀ lvl, Tag.from_start (.Heading lvl) = .ok (.Heading lvl.toUsize))
      ∧ Tag.from_start .Paragraph = .ok .Paragraph
      ∧ Tag.from_start .OtherTag = .error unimplementedPanic)
    ∧ (∀ txt, Node.parse_nodes [.Text txt] = .ok [⟨.Text (.Plain txt), []⟩])
    ∧ (∀ txt, Node.parse_nodes [.Start .Emphasis, .Text txt, .End .Emphasis]
        = .ok [⟨.Text (.Italic txt), []⟩])
    ∧ (∀ (rest : List Event) nodes oh tagEnd,
        Node.parse_loop (.End tagEnd :: rest) nodes oh = .error unimplementedPanic)
    ∧ (∀ (rest : List Event) nodes oh,
        Node.parse_loop (.SoftBreak :: rest) nodes oh = .error unimplementedPanic)
    ∧ (∀ (rest : List Event) nodes oh,
        Node.parse_loop (.HardBreak :: rest) nodes oh = .error unimplementedPanic)
    ∧ (∀ (rest : List Event) nodes oh,
        Node.parse_loop (.OtherEvent :: rest) nodes oh = .error unimplementedPanic)
    ∧ (∀ (rest : List Event) nodes oh,
        Node.parse_loop (.Start .OtherTag :: rest) nodes oh = .error unimplementedPanic) := by
  refine ⟨⟨rfl, rfl, rfl, fun lvl => rfl, rfl, rfl⟩, ?_, ?_, ?_, ?_, ?_, ?_, ?_⟩
  · intro txt
    simp [Node.parse_nodes, Node.parse_loop, push_node, popOpen, Node.node_type]
  · intro txt
    simp [Node.parse_nodes, Node.parse_loop, Node.parse_tag, Node.parse_text_event,
      Tag.from_start, Tag.from_end, collectUntilEnd, textOf, push_node, popOpen,
      Node.node_type, String.join]
  all_goals intros
  all_goals simp [Node.parse_loop, Tag.from_start]

/-- C5 counterexample: a heading title line at depth 1 is rendered with a
two-space leading indentation (the claim says heading lines are never
indented), and a multi-line text span at depth 1 indents only its first
line (the claim says every rendered line carries the indentation). -/
theorem c5_counterexample :
    Node.write_indented ⟨.Heading 1 [Text.Plain "T"], []⟩ 1 = "  # T\n"
    ∧ Node.write_indented ⟨.Text (.Plain "a\nb"), []⟩ 1 = "  a\nb" :=
  ⟨rfl, rfl⟩

/-- C5 amended: the renderer prefixes exactly `2*d` spaces once per node at
depth `d` — to each text span's output and to each heading title line alike —
while a heading's children are rendered at depth `d + 1` and `Document` and
`Paragraph` pass the depth through unchanged. -/
theorem c5_indentation (d : Nat) :
    (∀ t subs, Node.write_indented ⟨.Text t, subs⟩ d = spaces (2 * d) ++ t.to_markdown)
    ∧ (∀ lvl content subs, Node.write_indented ⟨.Heading lvl content, subs⟩ d =
        spaces (2 * d) ++ strRepeat "#" lvl ++ " "
          ++ String.join (content.map Text.to_markdown) ++ "\n"
          ++ writeListIndented subs (d + 1))
    ∧ (∀ subs, Node.write_indented ⟨.Document, subs⟩ d = writeListIndented subs d)
    ∧ (∀ subs, Node.write_indented ⟨.Paragraph, subs⟩ d = writeListIndented subs d) := by
  refine ⟨fun t subs => ?_, fun lvl content subs => ?_, fun subs => rfl, fun subs => rfl⟩ <;>
    simp [Node.write_indented, Nat.mul_comm]

/-- Helper for C3: on a stack of headings whose levels strictly decrease from
the top (head) of the stack, the popping loop for an incoming heading of
level `L` removes exactly the entries of level `≥ L`. -/
theorem popOpen_some_filter (L : Nat) (stack : List RcNode) :
    (stack.map entryLevel).Pairwise (fun a b => b < a) →
    (∀ e ∈ stack, entryLevel e < USIZE_MAX) →
    popOpen (some L) stack = stack.filter (fun e => decide (entryLevel e < L)) := by
  induction stack with
  | nil => intro _ _; rfl
  | cons e rest ih =>
    intro hsort hlev
    have he : entryLevel e < USIZE_MAX := hlev e (by simp)
    cases hnt : e.node.node_type with
    | Document => exact absurd he (by simp [entryLevel, headingLevel?, hnt])
    | Text txt => exact absurd he (by simp [entryLevel, headingLevel?, hnt])
    | Paragraph => exact absurd he (by simp [entryLevel, headingLevel?, hnt])
    | Heading l cont =>
      have hel : entryLevel e = l := by simp [entryLevel, headingLevel?, hnt]
      have hpc : (∀ a ∈ rest, entryLevel a < entryLevel e)
          ∧ (rest.map entryLevel).Pairwise (fun a b => b < a) := by simpa using hsort
      by_cases hL : L ≤ l
      · have hstep : popOpen (some L) (e :: rest) = popOpen (some L) rest := by
          simp [popOpen, hnt, hL]
        rw [hstep, ih hpc.2 (fun x hx => hlev x (by simp [hx]))]
        simp [List.filter_cons, hel, Nat.not_lt.mpr hL]
      · have hlt : l < L := Nat.not_le.mp hL
        have hstep : popOpen (some L) (e :: rest) = e :: rest := by
          simp [popOpen, hnt, hL]
        rw [hstep]
        have hall : ∀ x ∈ rest, entryLevel x < L := by
          intro x hx
          have hxe : entryLevel x < entryLevel e := hpc.1 x hx
          omega
        have hkeep : rest.filter (fun x => decide (entryLevel x < L)) = rest :=
          List.filter_eq_self.mpr (fun x hx => by simpa using hall x hx)
        simp [List.filter_cons, hel, hlt, hkeep]

/-- Helper for C3: for a non-heading node (`push_level = None`, treated as
`usize::MAX`) nothing is ever popped from a stack of in-range headings. -/
theorem popOpen_none_id (stack : List RcNode)
    (hlev : ∀ e ∈ stack, entryLevel e < USIZE_MAX) :
    popOpen none stack = stack := by
  cases stack with
  | nil => rfl
  | cons e rest =>
    have he : entryLevel e < USIZE_MAX := hlev e (by simp)
    cases hnt : e.node.node_type with
    | Document => exact absurd he (by simp [entryLevel, headingLevel?, hnt])
    | Text txt => exact absurd he (by simp [entryLevel, headingLevel?, hnt])
    | Paragraph => exact absurd he (by simp [entryLevel, headingLevel?, hnt])
    | Heading l cont =>
      have hel : entryLevel e = l := by simp [entryLevel, headingLevel?, hnt]
      have hll : l < USIZE_MAX := by omega
      simp [popOpen, hnt, Nat.not_le.mpr hll]

/-- C3: for every node handed to the assembler's `push_node` over a stack
satisfying the assembly invariants (every open entry is a heading whose level
is in `usize` range, levels strictly decreasing from the top of the stack —
i.e. strictly increasing shallowest-first): if the node is a Heading of level
`L`, the popping step removes exactly the entries of level `≥ L` (so an
equal-level heading closes the open one), and if the node is not a Heading
(`push_level = None`), no entry is ever popped. -/
theorem c3_popping_step (stack : List RcNode)
    (hsort : (stack.map entryLevel).Pairwise (fun a b => b < a))
    (hlev : ∀ e ∈ stack, entryLevel e < USIZE_MAX) :
    (∀ L, popOpen (some L) stack = stack.filter (fun e => decide (entryLevel e < L)))
    ∧ popOpen none stack = stack :=
  ⟨fun L => popOpen_some_filter L stack hsort hlev, popOpen_none_id stack hlev⟩

/-- Witness for C3 at a concrete stack (open levels 2 below 3 on top) and an
incoming heading of level 3: the equal-level top entry is popped, the
level-2 entry is kept, and a non-heading pops nothing. -/
theorem c3_popping_step_witness :
    popOpen (some 3) [⟨⟨.Heading 3 [], []⟩, 2⟩, ⟨⟨.Heading 2 [], []⟩, 2⟩]
        = [⟨⟨.Heading 2 [], []⟩, 2⟩]
    ∧ popOpen none [⟨⟨.Heading 3 [], []⟩, 2⟩, ⟨⟨.Heading 2 [], []⟩, 2⟩]
        = [⟨⟨.Heading 3 [], []⟩, 2⟩, ⟨⟨.Heading 2 [], []⟩, 2⟩] := by
  have h := c3_popping_step [⟨⟨.Heading 3 [], []⟩, 2⟩, ⟨⟨.Heading 2 [], []⟩, 2⟩]
    (by simp [entryLevel, headingLevel?, Node.node_type])
    (by intro e he
        simp only [List.mem_cons, List.not_mem_nil, or_false] at he
        rcases he with rfl | rfl <;>
          simp [entryLevel, headingLevel?, Node.node_type, USIZE_MAX])
  exact ⟨by rw [h.1 3]; rfl, h.2⟩

/-- Helper for C6: if every collected event is a literal-text event, the
`filter_map` keeps them all, so the length check of `parse_text_event`
passes. -/
theorem filterMap_textOf_length_eq_of_all (l : List Event)
    (h : ∀ e ∈ l, ∃ s, e = Event.Text s) : (l.filterMap textOf).length = l.length := by
  induction l with
  | nil => rfl
  | cons e rest ih =>
    obtain ⟨s, rfl⟩ := h e (by simp)
    simp [List.filterMap_cons, textOf, ih (fun x hx => h x (by simp [hx]))]

/-- Helper for C6: a collected event that is not a literal-text event makes
the `filter_map` strictly shorter, so the length check fails. -/
theorem filterMap_textOf_length_lt (l : List Event) (e : Event) (he : e ∈ l)
    (hnt : textOf e = none) : (l.filterMap textOf).length < l.length := by
  induction l with
  | nil => simp at he
  | cons x rest ih =>
    rcases List.mem_cons.mp he with rfl | hmem
    · have hle := List.length_filterMap_le textOf rest
      simp [List.filterMap_cons, hnt]
      omega
    · cases hx : textOf x with
      | none =>
        have hle := List.length_filterMap_le textOf rest
        simp [List.filterMap_cons, hx]
        omega
      | some s =>
        have := ih hmem
        simp [List.filterMap_cons, hx]
        omega

/-- C6 amended: for an inline-style tag (Italic/Bold/Strikethrough), if the
`take_while` split of the sub-stream succeeds and every consumed event is a
literal-text event, the parser returns a single `Text` node of the
corresponding styled type holding the texts concatenated in input order;
if some consumed event is not a literal-text event the parse fails with
`MalformedInline`; and if the split itself hits an `End` event of a
non-inline kind, `Tag::from_end` panics (`todo!()`) and that panic — not
`MalformedInline` — is the outcome. -/
theorem c6_inline_style (events : List Event) (tag : Tag)
    (htag : tag = .Italic ∨ tag = .Bold ∨ tag = .Strikethrough) :
    (∀ pe, collectUntilEnd tag events = .error pe →
        Node.parse_text_event events tag = .error pe)
    ∧ ∀ c, collectUntilEnd tag events = .ok c →
        ((∀ e ∈ c.taken, ∃ s, e = Event.Text s) →
            Node.parse_text_event events tag =
              .ok (⟨.Text (styledSpan tag (String.join (c.taken.filterMap textOf))), []⟩,
                   ⟨c.rest, c.rest_le⟩))
        ∧ ((∃ e ∈ c.taken, textOf e = none) →
            Node.parse_text_event events tag = .error MalformedInline) := by
  constructor
  · intro pe hpe
    simp [Node.parse_text_event, hpe]
  · intro c hc
    constructor
    · intro hall
      have hlen := filterMap_textOf_length_eq_of_all c.taken hall
      rcases htag with rfl | rfl | rfl <;>
        simp [Node.parse_text_event, hc, hlen, styledSpan]
    · intro ⟨e, he, hnt⟩
      have hlen := filterMap_textOf_length_lt c.taken e he hnt
      have hne : c.taken.length ≠ (c.taken.filterMap textOf).length := by omega
      simp [Node.parse_text_event, hc, hne]

/-- C6 counterexample: with an `End(Heading)` event inside the consumed
sub-stream of an Italic span, the parse aborts with the `todo!()` panic of
`Tag::from_end`, not with the `MalformedInline` error the claim requires for
a non-text event in the sub-stream. -/
theorem c6_counterexample :
    Node.parse_text_event [.End (.Heading .H1), .End .Emphasis] Tag.Italic
        = .error unimplementedPanic
    ∧ Node.parse_text_event [.End (.Heading .H1), .End .Emphasis] Tag.Italic
        ≠ .error MalformedInline := by
  have h : Node.parse_text_event [.End (.Heading .H1), .End .Emphasis] Tag.Italic
      = .error unimplementedPanic := rfl
  refine ⟨h, ?_⟩
  rw [h]
  intro hcontra
  injection hcontra with h2
  exact PErr.noConfusion h2

/-- Witness for C6 at concrete inputs: an all-text Italic sub-stream yields a
single `Italic` span with the texts concatenated in order, and a soft-break
inside the sub-stream yields `MalformedInline`. -/
theorem c6_inline_style_witness :
    Node.parse_text_event [.Text "a", .Text "b", .End .Emphasis] Tag.Italic
        = .ok (⟨.Text (.Italic "ab"), []⟩, ⟨[], by simp⟩)
    ∧ Node.parse_text_event [.Text "a", .SoftBreak, .End .Emphasis] Tag.Italic
        = .error MalformedInline := by
  constructor
  · have h := (c6_inline_style [.Text "a", .Text "b", .End .Emphasis] Tag.Italic
        (Or.inl rfl)).2 ⟨[.Text "a", .Text "b"], [], by simp, by simp⟩ rfl
    have h2 := h.1 (by
      intro e he
      simp only [List.mem_cons, List.not_mem_nil, or_false] at he
      rcases he with rfl | rfl
      · exact ⟨"a", rfl⟩
      · exact ⟨"b", rfl⟩)
    rw [h2]
    rfl
  · have h := (c6_inline_style [.Text "a", .SoftBreak, .End .Emphasis] Tag.Italic
        (Or.inl rfl)).2 ⟨[.Text "a", .SoftBreak], [], by simp, by simp⟩ rfl
    exact h.2 ⟨.SoftBreak, by simp, rfl⟩

/-- Helper for C7: the text-only scan succeeds when every node is a text
node. -/
theorem check_all_text_ok (ns : List Node) (h : ∀ n ∈ ns, isTextNode n = true) :
    check_all_text ns = .ok () := by
  induction ns with
  | nil => rfl
  | cons n rest ih =>
    have hn := h n (by simp)
    cases hnt : n.node_type with
    | Text txt => simp [check_all_text, hnt, ih (fun x hx => h x (by simp [hx]))]
    | Document => exact absurd hn (by simp [isTextNode, hnt])
    | Paragraph => exact absurd hn (by simp [isTextNode, hnt])
    | Heading l cont => exact absurd hn (by simp [isTextNode, hnt])

/-- Helper for C7: the text-only scan fails with the structural-violation
error as soon as some node is not a text node. -/
theorem check_all_text_error (ns : List Node) (h : ∃ n ∈ ns, isTextNode n = false) :
    check_all_text ns = .error StructuralViolation := by
  induction ns with
  | nil => simp at h
  | cons n rest ih =>
    cases hnt : n.node_type with
    | Text txt =>
      obtain ⟨m, hm, hmf⟩ := h
      rcases List.mem_cons.mp hm with rfl | hmem
      · exact absurd hmf (by simp [isTextNode, hnt])
      · simp [check_all_text, hnt, ih ⟨m, hmem, hmf⟩]
    | Document => simp [check_all_text, hnt]
    | Paragraph => simp [check_all_text, hnt]
    | Heading l cont => simp [check_all_text, hnt]

/-- C7: whenever the paragraph (resp. heading-title) sub-stream recursively
parses to a node sequence containing a non-text node, the parse fails with
`StructuralViolation`; when all nodes are text nodes, the `Paragraph` takes
them as its children and the `Heading` takes their spans as its inline
content with an empty children list. -/
theorem c7_text_only_containers (events : List Event) :
    (∀ c, collectUntilEnd Tag.Paragraph events = .ok c →
      ∀ ns, Node.parse_nodes c.taken = .ok ns →
        (((∃ n ∈ ns, isTextNode n = false) →
            Node.parse_paragraph events = .error StructuralViolation)
         ∧ ((∀ n ∈ ns, isTextNode n = true) →
            Node.parse_paragraph events = .ok (⟨.Paragraph, ns⟩, ⟨c.rest, c.rest_le⟩))))
    ∧ (∀ (lvl : Nat) c, collectUntilEnd (Tag.Heading lvl) events = .ok c →
      ∀ ns, Node.parse_nodes c.taken = .ok ns →
        (((∃ n ∈ ns, isTextNode n = false) →
            Node.parse_heading events (Tag.Heading lvl) = .error StructuralViolation)
         ∧ ((∀ n ∈ ns, isTextNode n = true) →
            Node.parse_heading events (Tag.Heading lvl)
              = .ok (⟨.Heading lvl (ns.filterMap nodeSpan), []⟩, ⟨c.rest, c.rest_le⟩)))) := by
  constructor
  · intro c hc ns hns
    constructor
    · intro hex
      simp [Node.parse_paragraph, hc, hns, check_all_text_error ns hex]
    · intro hall
      simp [Node.parse_paragraph, hc, hns, check_all_text_ok ns hall]
  · intro lvl c hc ns hns
    constructor
    · intro hex
      simp [Node.parse_heading, hc, hns, check_all_text_error ns hex]
    · intro hall
      simp [Node.parse_heading, hc, hns, check_all_text_ok ns hall]

/-- Witness for C7 at concrete inputs: a nested paragraph inside a paragraph
sub-stream triggers `StructuralViolation`, and an all-text heading-title
sub-stream produces the heading with the spans as content and no children. -/
theorem c7_text_only_containers_witness :
    Node.parse_paragraph [.Start .Paragraph, .Text "x"] = .error StructuralViolation
    ∧ Node.parse_heading [.Text "T"] (Tag.Heading 1)
        = .ok (⟨.Heading 1 [.Plain "T"], []⟩, ⟨[], by simp⟩) := by
  constructor
  · have hns : Node.parse_nodes [.Start .Paragraph, .Text "x"]
        = .ok [⟨.Paragraph, [⟨.Text (.Plain "x"), []⟩]⟩] := by
      simp [Node.parse_nodes, Node.parse_loop, Node.parse_tag, Node.parse_paragraph,
        Tag.from_start, collectUntilEnd, check_all_text, push_node, popOpen, Node.node_type]
    have h := (c7_text_only_containers [.Start .Paragraph, .Text "x"]).1
        ⟨[.Start .Paragraph, .Text "x"], [], by simp, by simp⟩ rfl
        [⟨.Paragraph, [⟨.Text (.Plain "x"), []⟩]⟩] hns
    exact h.1 ⟨⟨.Paragraph, [⟨.Text (.Plain "x"), []⟩]⟩, by simp, rfl⟩
  · have hns : Node.parse_nodes [.Text "T"] = .ok [⟨.Text (.Plain "T"), []⟩] := by
      simp [Node.parse_nodes, Node.parse_loop, push_node, popOpen, Node.node_type]
    have h := (c7_text_only_containers [.Text "T"]).2 1
        ⟨[.Text "T"], [], by simp, by simp⟩ rfl
        [⟨.Text (.Plain "T"), []⟩] hns
    have h2 := h.2 (by
      intro n hn
      simp only [List.mem_cons, List.not_mem_nil, or_false] at hn
      subst hn
      rfl)
    rw [h2]
    rfl

/-- Helper for C10: with an empty open-headings stack, `push_node` appends
non-headings to the root list and leaves the stack empty, while a heading
hits `0usize => todo!()` and panics. -/
theorem push_node_empty_stack (node : Node) (nodes : List Node) :
    push_node node nodes [] =
      match node.node_type with
      | .Heading _ _ => .error unimplementedPanic
      | _ => .ok (nodes ++ [node], []) := by
  cases node with
  | mk nt subs => cases nt <;> rfl

/-- Helper for C10: the main loop started with an empty open-headings stack
behaves exactly like the stack-free roots-only loop, by strong induction on
the length of the remaining event stream. -/
theorem parse_loop_empty_stack_aux (k : Nat) : ∀ (events : List Event),
    events.length ≤ k → ∀ (nodes : List Node),
    Node.parse_loop events nodes [] = parse_loop_roots_only events nodes := by
  induction k with
  | zero =>
    intro events hlen nodes
    have heq : events = [] := List.eq_nil_of_length_eq_zero (Nat.le_zero.mp hlen)
    subst heq
    simp [Node.parse_loop, parse_loop_roots_only]
  | succ k ih =>
    intro events hlen nodes
    cases events with
    | nil => simp [Node.parse_loop, parse_loop_roots_only]
    | cons ev rest =>
      have hrest : rest.length ≤ k := by
        simp only [List.length_cons] at hlen; omega
      cases ev with
      | Start ptag =>
        rw [Node.parse_loop, parse_loop_roots_only]
        cases hfs : Tag.from_start ptag with
        | error pe => simp [hfs]
        | ok tag =>
          simp only [hfs]
          cases hpt : Node.parse_tag rest tag with
          | error pe => simp [hpt]
          | ok pr =>
            obtain ⟨node, rest'⟩ := pr
            simp only [hpt, push_node_empty_stack]
            cases hnt : node.node_type with
            | Heading lvl cont => simp [hnt]
            | Document =>
              simp only [hnt]
              exact ih rest'.val (Nat.le_trans rest'.2 hrest) (nodes ++ [node])
            | Text txt =>
              simp only [hnt]
              exact ih rest'.val (Nat.le_trans rest'.2 hrest) (nodes ++ [node])
            | Paragraph =>
              simp only [hnt]
              exact ih rest'.val (Nat.le_trans rest'.2 hrest) (nodes ++ [node])
      | Text txt =>
        rw [Node.parse_loop, parse_loop_roots_only]
        simp only [push_node_empty_stack]
        exact ih rest hrest (nodes ++ [⟨.Text (.Plain txt), []⟩])
      | End tagEnd => simp [Node.parse_loop, parse_loop_roots_only]
      | SoftBreak => simp [Node.parse_loop, parse_loop_roots_only]
      | HardBreak => simp [Node.parse_loop, parse_loop_roots_only]
      | OtherEvent => simp [Node.parse_loop, parse_loop_roots_only]

/-- C10: started (as `parse_nodes` starts it) with an empty open-headings
stack, the assembler's main loop never grows the stack — growing it would
require the heading branch, whose empty-stack case panics — so it is
observably equal to the stack-free roots-only loop: every produced node is
appended to the root list, and the branch attaching a node as a child of an
open heading (including its `Rc::get_mut` aliasing failure path) is never
executed. -/
theorem c10_open_stack_stays_empty (events : List Event) :
    (∀ nodes, Node.parse_loop events nodes [] = parse_loop_roots_only events nodes)
    ∧ Node.parse_nodes events = parse_loop_roots_only events [] := by
  refine ⟨fun nodes => parse_loop_empty_stack_aux events.length events (Nat.le_refl _) nodes, ?_⟩
  rw [Node.parse_nodes]
  exact parse_loop_empty_stack_aux events.length events (Nat.le_refl _) []
